import Mathlib

/-!
# LabReportAI — verification of the reference client and pipeline contract

Shallow embedding of the LabReportAI frontend (Next.js reference client)
together with a spec-modelled fragment of the backend pipeline.  The
embedded code comes from:

* `frontend/src/lib/chat.ts` — `sendChatMessage` and its SSE parsing loop;
* `frontend/src/components/ChatWidget.tsx` — `handleSendMessage` and the
  stream callbacks;
* `frontend/src/components/StatusPoller.tsx` — `poll` and the polling loop;
* `frontend/src/components/UploadForm.tsx` — `validateFile`;
* the backend redaction stage, which is not part of the frontend sources
  and is therefore modelled from the specification.

JavaScript strings are modelled as `List Char`; `JSON.parse` is an
uninterpreted parameter producing an optional `Json` value, matching the
code's use of it as an external capability.
-/

/-- A JSON value, as produced by `JSON.parse`.  Numbers are modelled as
integers; the claims under study never inspect numeric payloads. -/
inductive Json : Type where
  | null : Json
  | bool (b : Bool) : Json
  | num (n : Int) : Json
  | str (s : String) : Json
  | arr (xs : List Json) : Json
  | obj (fields : List (String × Json)) : Json

/-- JavaScript property access `j.k`: defined on objects, `undefined`
(`none`) on every other value.  An explicit JSON `null` field is
`some Json.null`, which is distinct from an absent field — exactly the
`!== undefined` distinction the client code relies on. -/
def Json.getField : Json → String → Option Json
  | Json.obj fields, k => fields.lookup k
  | _, _ => none

/-- JavaScript truthiness of a JSON value (used by `error.message || d`). -/
def Json.truthy : Json → Bool
  | Json.null => false
  | Json.bool b => b
  | Json.num n => n != 0
  | Json.str s => s != ""
  | Json.arr _ => true
  | Json.obj _ => true

/-- One callback invocation made by `sendChatMessage` on its
`ChatStreamCallbacks` argument. -/
inductive CbEvent : Type where
  | onToken (content : Json) : CbEvent
  | onDone (suggestions : Json) (messagesRemaining : Option Json) : CbEvent
  | onError (message : Json) : CbEvent

/-- `true` exactly on `onToken` events. -/
def CbEvent.isToken : CbEvent → Bool
  | CbEvent.onToken _ => true
  | _ => false

/-- `true` exactly on the terminal events `onDone` and `onError`. -/
def CbEvent.isTerminal : CbEvent → Bool
  | CbEvent.onDone _ _ => true
  | CbEvent.onError _ => true
  | CbEvent.onToken _ => false

/-- The body of the `for (const line of lines)` loop in `sendChatMessage`:
`event: ` lines are skipped, `data: ` lines have their payload parsed
(`JSON.parse(line.slice(6))`, modelled by the uninterpreted `parse`), a
parse failure is swallowed, and an object dispatches on the first of
`content` / `suggestions` / `message` that is not `undefined`. -/
def processLine (parse : List Char → Option Json) (line : List Char) :
    List CbEvent :=
  if ("event: ".toList).isPrefixOf line then []
  else if ("data: ".toList).isPrefixOf line then
    match parse (line.drop 6) with
    | none => []
    | some d =>
      match d.getField "content" with
      | some c => [CbEvent.onToken c]
      | none =>
        match d.getField "suggestions" with
        | some s => [CbEvent.onDone s (d.getField "messages_remaining")]
        | none =>
          match d.getField "message" with
          | some m => [CbEvent.onError m]
          | none => []
  else []

/-- `buffer.split("\n")` followed by `buffer = lines.pop() || ""`: the
completed (newline-terminated) lines in order, paired with the trailing
incomplete remainder that stays in the buffer. -/
def splitBuf : List Char → List (List Char) × List Char
  | [] => ([], [])
  | c :: cs =>
    if c = '\n' then
      let p := splitBuf cs
      ([] :: p.1, p.2)
    else
      match splitBuf cs with
      | ([], r) => ([], c :: r)
      | (l :: ls, r) => ((c :: l) :: ls, r)

/-- One iteration of the read loop: append the decoded chunk to the
buffer, split off the completed lines, keep the remainder, and run the
line handler over every completed line. -/
def feedChunk (parse : List Char → Option Json) (buffer chunk : List Char) :
    List Char × List CbEvent :=
  let p := splitBuf (buffer ++ chunk)
  (p.2, p.1.flatMap (processLine parse))

/-- The whole read loop over a list of decoded chunks, starting from a
given buffer: final buffer plus the concatenated callback sequence. -/
def feedChunks (parse : List Char → Option Json) (buffer : List Char) :
    List (List Char) → List Char × List CbEvent
  | [] => (buffer, [])
  | c :: cs =>
    let p := feedChunk parse buffer c
    let q := feedChunks parse p.1 cs
    (q.1, p.2 ++ q.2)

/-- `sendChatMessage`'s stream consumption from its initial empty buffer. -/
def runStream (parse : List Char → Option Json) (chunks : List (List Char)) :
    List Char × List CbEvent :=
  feedChunks parse [] chunks

theorem splitBuf_nil : splitBuf [] = ([], []) := rfl

theorem splitBuf_cons (c : Char) (cs : List Char) :
    splitBuf (c :: cs) =
      if c = '\n' then ([] :: (splitBuf cs).1, (splitBuf cs).2)
      else
        match splitBuf cs with
        | ([], r) => ([], c :: r)
        | (l :: ls, r) => ((c :: l) :: ls, r) := by
  rfl

/-- Splitting a concatenation: the completed lines of `a ++ b` are the
completed lines of `a` followed by those of `a`'s remainder prepended to
`b`, and the remainders agree. -/
theorem splitBuf_append (a b : List Char) :
    splitBuf (a ++ b) =
      ((splitBuf a).1 ++ (splitBuf ((splitBuf a).2 ++ b)).1,
        (splitBuf ((splitBuf a).2 ++ b)).2) := by
  induction a with
  | nil => simp [splitBuf]
  | cons c cs ih =>
    by_cases hc : c = '\n'
    · subst hc
      simp only [List.cons_append, splitBuf_cons, if_pos rfl, ih]
      simp
    · rcases hls : (splitBuf cs).1 with _ | ⟨l, ls⟩
      · have hcs : splitBuf cs = ([], (splitBuf cs).2) := by
          rw [← hls]
        rw [List.cons_append, splitBuf_cons, if_neg hc, ih, hls,
          splitBuf_cons, if_neg hc, hcs]
        simp only [List.nil_append, List.cons_append]
        rw [splitBuf_cons, if_neg hc]
      · have hcs : splitBuf cs = (l :: ls, (splitBuf cs).2) := by
          rw [← hls]
        rw [List.cons_append, splitBuf_cons, if_neg hc, ih, hls,
          splitBuf_cons, if_neg hc, hcs]
        simp

/-- The remainder kept in the buffer contains no completed line: splitting
it again yields no lines and the same remainder. -/
theorem splitBuf_remainder (x : List Char) :
    splitBuf ((splitBuf x).2) = ([], (splitBuf x).2) := by
  have h := splitBuf_append x []
  simp only [List.append_nil] at h
  have h2 : (splitBuf ((splitBuf x).2)).1 = [] := by
    have h1 := congrArg Prod.fst h
    simp only at h1
    have h1' : (splitBuf x).1 ++ ([] : List (List Char)) =
        (splitBuf x).1 ++ (splitBuf ((splitBuf x).2)).1 := by
      simpa using h1
    exact (List.append_cancel_left h1').symm
  have h3 : (splitBuf ((splitBuf x).2)).2 = (splitBuf x).2 := by
    have := congrArg Prod.snd h
    simpa using this.symm
  rw [Prod.ext_iff]
  exact ⟨h2, h3⟩

/-- The read loop from a remainder-only buffer equals one pass of the line
splitter over the buffer followed by the whole flattened stream. -/
theorem feedChunks_flatten (parse : List Char → Option Json)
    (chunks : List (List Char)) :
    ∀ buffer : List Char, splitBuf buffer = ([], buffer) →
      feedChunks parse buffer chunks =
        ((splitBuf (buffer ++ chunks.flatten)).2,
          (splitBuf (buffer ++ chunks.flatten)).1.flatMap
            (processLine parse)) := by
  induction chunks with
  | nil =>
    intro buffer hbuf
    simp [feedChunks, hbuf]
  | cons c cs ih =>
    intro buffer hbuf
    have hrem := splitBuf_remainder (buffer ++ c)
    have hq := ih ((splitBuf (buffer ++ c)).2)
      (by rw [hrem])
    have happ := splitBuf_append (buffer ++ c) cs.flatten
    simp only [feedChunks, feedChunk, hq]
    rw [List.flatten_cons, ← List.append_assoc, happ]
    simp [List.flatMap_append]

/-- `sendChatMessage`'s stream consumption is determined by the flattened
byte stream alone: final buffer is the trailing unterminated line, and the
callback sequence is the line handler run over the completed lines. -/
theorem runStream_eq (parse : List Char → Option Json)
    (chunks : List (List Char)) :
    runStream parse chunks =
      ((splitBuf chunks.flatten).2,
        (splitBuf chunks.flatten).1.flatMap (processLine parse)) := by
  have h := feedChunks_flatten parse chunks [] rfl
  simpa [runStream] using h

/-- C10: the SSE parsing loop in `sendChatMessage` is invariant under chunk
boundaries — any two partitions of the byte stream into read chunks yield
the identical callback sequence and final buffer — and a final data line
not terminated by a newline remains in the buffer (the callbacks receive
only the newline-completed lines).  Splits inside a multi-byte character
are resolved by `TextDecoder`'s streaming mode before this loop runs, so
chunks are modelled as arbitrary partitions of the decoded character
stream. -/
theorem sse_chunk_boundary_invariance (parse : List Char → Option Json)
    (chunks chunks' : List (List Char))
    (h : chunks.flatten = chunks'.flatten) :
    runStream parse chunks = runStream parse chunks' ∧
    (runStream parse chunks).1 = (splitBuf chunks.flatten).2 ∧
    (runStream parse chunks).2 =
      (splitBuf chunks.flatten).1.flatMap (processLine parse) := by
  refine ⟨?_, ?_, ?_⟩
  · rw [runStream_eq, runStream_eq, h]
  · rw [runStream_eq]
  · rw [runStream_eq]

/-- Witness for C10: splitting `"data: tok\ndata: fin"` in the middle of a
line gives the same outcome as feeding it whole, and the trailing
`data: fin` (no newline) stays in the buffer, producing no callback. -/
theorem sse_chunk_boundary_invariance_witness :
    ("data: t".toList ++ "ok\ndata: fin".toList =
        ("data: tok\ndata: fin".toList : List Char)) ∧
    (runStream (fun _ => none) ["data: t".toList, "ok\ndata: fin".toList] =
      runStream (fun _ => none) ["data: tok\ndata: fin".toList]) := by
  refine ⟨by decide, ?_⟩
  have h := sse_chunk_boundary_invariance (fun _ => none)
    ["data: t".toList, "ok\ndata: fin".toList]
    ["data: tok\ndata: fin".toList] (by decide)
  exact h.1

/-- A concrete stand-in for `JSON.parse`, used to exercise the stream
model on closed inputs: `tok` parses to a token-bearing object, `fin` to
a done-bearing object, everything else is a parse failure. -/
def parseDemo (s : List Char) : Option Json :=
  if s = "tok".toList then some (Json.obj [("content", Json.str "hi")])
  else if s = "fin".toList then
    some (Json.obj [("suggestions", Json.arr []),
      ("messages_remaining", Json.num 19)])
  else none

/-- C1: consuming a conforming chat-turn event stream — completed data
lines consisting of token-bearing (or skipped) lines followed by one
terminal line — invokes zero or more `onToken` callbacks followed by
exactly one terminal callback (`onDone` for a `suggestions` payload,
`onError` for a `message` payload) and nothing afterwards; moreover every
line triggers at most one callback, and a data line whose payload fails
to parse triggers none. -/
theorem chat_stream_callback_shape (parse : List Char → Option Json)
    (s : List Char) (pre : List (List Char)) (tl rest : List Char)
    (hsplit : splitBuf s = (pre ++ [tl], rest))
    (hpre : ∀ l ∈ pre, ∀ e ∈ processLine parse l, e.isToken = true)
    (hterm : ∃ e, processLine parse tl = [e] ∧ e.isTerminal = true) :
    (∃ toks e, (feedChunk parse [] s).2 = toks ++ [e] ∧
        (∀ x ∈ toks, CbEvent.isToken x = true) ∧
        CbEvent.isTerminal e = true) ∧
    (∀ l, (processLine parse l).length ≤ 1) ∧
    (∀ l, ("data: ".toList).isPrefixOf l = true →
      parse (l.drop 6) = none → processLine parse l = []) := by
  refine ⟨?_, ?_, ?_⟩
  · obtain ⟨e, he, hterme⟩ := hterm
    refine ⟨pre.flatMap (processLine parse), e, ?_, ?_, hterme⟩
    · simp only [feedChunk, List.nil_append, hsplit]
      rw [List.flatMap_append]
      simp [he]
    · intro x hx
      obtain ⟨l, hl, hxl⟩ := List.mem_flatMap.mp hx
      exact hpre l hl x hxl
  · intro l
    unfold processLine
    split
    · simp
    · split
      · split
        · simp
        · split
          · simp
          · split
            · simp
            · split
              · simp
              · simp
      · simp
  · intro l hdata hparse
    have hev : ("event: ".toList).isPrefixOf l = false := by
      cases he : ("event: ".toList).isPrefixOf l with
      | false => rfl
      | true =>
        exfalso
        obtain ⟨t1, ht1⟩ := List.isPrefixOf_iff_prefix.mp hdata
        obtain ⟨t2, ht2⟩ := List.isPrefixOf_iff_prefix.mp he
        rw [← ht1] at ht2
        have h1 : ("event: ".toList ++ t2) = 'e' :: ("vent: ".toList ++ t2) :=
          rfl
        have h2 : ("data: ".toList ++ t1) = 'd' :: ("ata: ".toList ++ t1) :=
          rfl
        rw [h1, h2] at ht2
        injection ht2 with hhead _
        exact absurd hhead (by decide)
    simp [processLine, hev, hdata, hparse]

/-- Witness for C1: the two-line stream `data: tok\ndata: fin\n` under
`parseDemo` splits into one token line and one terminal line, and the
callback sequence is one `onToken` followed by one terminal event. -/
theorem chat_stream_callback_shape_witness :
    splitBuf ("data: tok\ndata: fin\n".toList) =
      (["data: tok".toList] ++ ["data: fin".toList], []) ∧
    (∃ toks e,
      (feedChunk parseDemo [] ("data: tok\ndata: fin\n".toList)).2 =
          toks ++ [e] ∧
        (∀ x ∈ toks, CbEvent.isToken x = true) ∧
        CbEvent.isTerminal e = true) := by
  constructor
  · decide
  · exact (chat_stream_callback_shape parseDemo
      ("data: tok\ndata: fin\n".toList) ["data: tok".toList]
      ("data: fin".toList) [] (by decide)
      (by
        intro l hl e hev
        simp only [List.mem_singleton] at hl
        subst hl
        have hpl : processLine parseDemo ("data: tok".toList) =
            [CbEvent.onToken (Json.str "hi")] := rfl
        rw [hpl] at hev
        simp only [List.mem_singleton] at hev
        subst hev
        rfl)
      ⟨CbEvent.onDone (Json.arr []) (some (Json.num 19)), rfl, rfl⟩).1

/-- A chat transcript entry (`ChatMessage` in `types/index.ts`). -/
inductive ChatRole : Type where
  | user : ChatRole
  | assistant : ChatRole
deriving DecidableEq

/-- `{role, content}` pair carried in `conversation_history`. -/
structure ChatMessage : Type where
  role : ChatRole
  content : String
deriving DecidableEq

/-- The `done` event payload (`ChatStreamDoneEvent`). -/
structure ChatStreamDoneEvent : Type where
  suggestions : List String
  messagesRemaining : Int
deriving DecidableEq

/-- The React state of `ChatWidget` that the chat-turn logic touches. -/
structure WidgetState : Type where
  messages : List ChatMessage
  inputValue : String
  isStreaming : Bool
  currentStreamedResponse : String
  suggestions : List String
  messagesRemaining : Int
  error : Option String
deriving DecidableEq

/-- The widget's initial state: `useState(20)` for the counter, empty
transcript, not streaming. -/
def initialWidgetState : WidgetState :=
  { messages := []
    inputValue := ""
    isStreaming := false
    currentStreamedResponse := ""
    suggestions := []
    messagesRemaining := 20
    error := none }

/-- The `POST /v1/chat/{jobId}` request body built by `sendChatMessage`. -/
structure ConverseRequest : Type where
  jobId : String
  message : String
  conversationHistory : List ChatMessage
deriving DecidableEq

/-- JavaScript `String.prototype.trim()`: drop leading and trailing
whitespace.  Defined by structural recursion over the character list so
that it evaluates on closed inputs. -/
def jsTrim (s : String) : String :=
  String.mk
    (((s.data.dropWhile Char.isWhitespace).reverse.dropWhile
      Char.isWhitespace).reverse)

/-- `handleSendMessage`: the guard
`if (!message.trim() || isStreaming || messagesRemaining <= 0) return;`
followed by the state updates and the dispatch of `sendChatMessage` with
the pre-append `messages` as history.  Returns the new widget state and
the dispatched request, if any. -/
def handleSendMessage (jobId : String) (st : WidgetState) (message : String) :
    WidgetState × Option ConverseRequest :=
  if jsTrim message = "" ∨ st.isStreaming = true ∨ st.messagesRemaining ≤ 0 then
    (st, none)
  else
    ({ st with
        error := none
        isStreaming := true
        currentStreamedResponse := ""
        messages := st.messages ++ [⟨ChatRole.user, jsTrim message⟩]
        inputValue := ""
        suggestions := [] },
      some ⟨jobId, jsTrim message, st.messages⟩)

/-- The widget's `onToken` callback: append the token to the streamed
response buffer. -/
def onTokenUpdate (st : WidgetState) (token : String) : WidgetState :=
  { st with currentStreamedResponse := st.currentStreamedResponse ++ token }

/-- The widget's `onDone` callback: finalize the streamed response as an
assistant message (when non-empty), stop streaming, install the fresh
suggestions and counter. -/
def onDoneUpdate (st : WidgetState) (ev : ChatStreamDoneEvent) : WidgetState :=
  { st with
      messages :=
        if st.currentStreamedResponse ≠ "" then
          st.messages ++ [⟨ChatRole.assistant, st.currentStreamedResponse⟩]
        else st.messages
      currentStreamedResponse := ""
      isStreaming := false
      suggestions := ev.suggestions
      messagesRemaining := ev.messagesRemaining }

/-- The widget's `onError` callback. -/
def onErrorUpdate (st : WidgetState) (msg : String) : WidgetState :=
  { st with
      error := some msg
      isStreaming := false
      currentStreamedResponse := "" }

/-- C2: a send attempt with an exhausted counter, an in-flight stream, or
a blank message dispatches nothing and leaves the widget state untouched;
a request goes out only when all three preconditions hold; and the
counter starts at the ceiling default 20. -/
theorem chat_send_guard (jobId message : String) (st : WidgetState)
    (h : st.messagesRemaining ≤ 0 ∨ st.isStreaming = true ∨
      jsTrim message = "") :
    handleSendMessage jobId st message = (st, none) ∧
    initialWidgetState.messagesRemaining = 20 ∧
    (∀ (st2 : WidgetState) (m2 : String),
      (handleSendMessage jobId st2 m2).2.isSome = true →
        jsTrim m2 ≠ "" ∧ st2.isStreaming = false ∧ 0 < st2.messagesRemaining) := by
  refine ⟨?_, rfl, ?_⟩
  · unfold handleSendMessage
    rw [if_pos]
    tauto
  · intro st2 m2 hsome
    unfold handleSendMessage at hsome
    by_cases hg : jsTrim m2 = "" ∨ st2.isStreaming = true ∨
        st2.messagesRemaining ≤ 0
    · rw [if_pos hg] at hsome
      simp at hsome
    · push_neg at hg
      refine ⟨hg.1, ?_, by omega⟩
      cases hb : st2.isStreaming with
      | false => rfl
      | true => exact absurd hb hg.2.1

/-- Witness for C2: with the counter at 0 the guard blocks the send and
returns the state unchanged. -/
theorem chat_send_guard_witness :
    handleSendMessage "job1" { initialWidgetState with messagesRemaining := 0 }
        "hello" =
      ({ initialWidgetState with messagesRemaining := 0 }, none) := by
  exact (chat_send_guard "job1" "hello"
    { initialWidgetState with messagesRemaining := 0 }
    (Or.inl (by decide))).1

/-- C3: every dispatched converse request carries the full ordered list of
previously finalized messages as `conversation_history` — exactly the
widget's `messages` state at dispatch, which excludes the user message
being sent (that message is appended to the state but not to the history
sent). -/
theorem chat_history_full_resend (jobId message : String) (st : WidgetState)
    (req : ConverseRequest)
    (h : (handleSendMessage jobId st message).2 = some req) :
    req.conversationHistory = st.messages ∧
    req.message = jsTrim message ∧
    (handleSendMessage jobId st message).1.messages =
      st.messages ++ [⟨ChatRole.user, jsTrim message⟩] := by
  unfold handleSendMessage at h ⊢
  by_cases hg : jsTrim message = "" ∨ st.isStreaming = true ∨
      st.messagesRemaining ≤ 0
  · rw [if_pos hg] at h
    simp at h
  · rw [if_neg hg] at h
    rw [if_neg hg]
    simp only [Option.some.injEq] at h
    subst h
    exact ⟨rfl, rfl, rfl⟩

/-- Witness for C3: a send from a one-message transcript resends that
transcript in full and appends only the new user message locally. -/
theorem chat_history_full_resend_witness :
    (handleSendMessage "job1"
        { initialWidgetState with
            messages := [⟨ChatRole.user, "hi"⟩] } "next").2 =
      some ⟨"job1", "next", [⟨ChatRole.user, "hi"⟩]⟩ ∧
    (handleSendMessage "job1"
        { initialWidgetState with
            messages := [⟨ChatRole.user, "hi"⟩] } "next").1.messages =
      [⟨ChatRole.user, "hi"⟩] ++ [⟨ChatRole.user, "next"⟩] := by
  refine ⟨by decide, ?_⟩
  exact (chat_history_full_resend "job1" "next"
    { initialWidgetState with messages := [⟨ChatRole.user, "hi"⟩] }
    ⟨"job1", "next", [⟨ChatRole.user, "hi"⟩]⟩ (by decide)).2.2

/-- A JavaScript `Error` as seen by the `catch` clause of
`sendChatMessage`. -/
structure JsError : Type where
  name : String
  message : String
deriving DecidableEq

/-- The `catch (err)` clause of `sendChatMessage`: an `AbortError` is
swallowed (the request was cancelled), any other error produces a single
`onError` callback. -/
def catchEvents (e : JsError) : List CbEvent :=
  if e.name = "AbortError" then []
  else [CbEvent.onError (Json.str e.message)]

/-- The rejection produced when the fetch or a reader read is aborted via
the `AbortController`. -/
def abortError : JsError :=
  { name := "AbortError", message := "The operation was aborted." }

/-- Stream consumption when the controller is aborted after `k` chunks:
the chunks read before the abort are processed, the next read rejects
with `abortError`, and the `catch` clause decides what follows. -/
def runStreamAborted (parse : List Char → Option Json)
    (chunks : List (List Char)) (k : Nat) : List CbEvent :=
  (runStream parse (chunks.take k)).2 ++ catchEvents abortError

/-- C9: once the `AbortController` is aborted (as `handleClose` does), the
stream delivers no further callback — the AbortError is swallowed by the
`catch` clause — and however many `onToken` callbacks arrived before the
abort, the widget's transcript is untouched: the partially streamed text
accumulates only in `currentStreamedResponse`, never in `messages`, so it
is dropped rather than appended.  Aborts are modelled at read boundaries:
the fetch promise chain rejects at the next `reader.read()`. -/
theorem chat_abort_no_callbacks (parse : List Char → Option Json)
    (chunks : List (List Char)) (k : Nat) (st : WidgetState)
    (toks : List String) :
    runStreamAborted parse chunks k = (runStream parse (chunks.take k)).2 ∧
    catchEvents abortError = [] ∧
    (toks.foldl onTokenUpdate st).messages = st.messages ∧
    (toks.foldl onTokenUpdate st).isStreaming = st.isStreaming := by
  have hcatch : catchEvents abortError = [] := rfl
  refine ⟨?_, hcatch, ?_, ?_⟩
  · unfold runStreamAborted
    rw [hcatch, List.append_nil]
  · induction toks generalizing st with
    | nil => rfl
    | cons t ts ih => exact ih (onTokenUpdate st t)
  · induction toks generalizing st with
    | nil => rfl
    | cons t ts ih => exact ih (onTokenUpdate st t)

/-- The default error text of the chat-turn request path. -/
def defaultSendError : String := "Failed to send message."

/-- The status-specific fallbacks of the `catch` branch around
`res.json()` and `error.message`. -/
def chatCatchDefault (status : Nat) : Json :=
  if status = 429 then Json.str "Message limit reached for this report."
  else if status = 503 then Json.str "Chat feature is currently unavailable."
  else Json.str defaultSendError

/-- The non-ok branch of `sendChatMessage`: start from the generic
default; `error.message || errorMessage` overwrites it with a truthy
`message` field when the body parses to a non-null value; the `catch`
with its status-specific 429/503 fallbacks fires both when `res.json()`
rejects (`body = none`) and when the body parses to JSON `null`, because
`error.message` then throws a TypeError inside the `try`.  A body parsing
to any other primitive merely yields `undefined` for `error.message` and
keeps the generic default. -/
def chatErrorMessage (status : Nat) (body : Option Json) : Json :=
  match body with
  | some Json.null => chatCatchDefault status
  | some b =>
    match b.getField "message" with
    | some m => if m.truthy then m else Json.str defaultSendError
    | none => Json.str defaultSendError
  | none => chatCatchDefault status

/-- `sendChatMessage` as a function of the response it receives: the
non-ok path calls `onError` once and returns; a missing body reader calls
`onError` once; otherwise the SSE loop runs over the body chunks. -/
structure ChatResponse : Type where
  ok : Bool
  status : Nat
  jsonBody : Option Json
  bodyChunks : Option (List (List Char))

/-- The callback sequence `sendChatMessage` produces for a response. -/
def sendChatMessageModel (parse : List Char → Option Json)
    (r : ChatResponse) : List CbEvent :=
  if r.ok = false then
    [CbEvent.onError (chatErrorMessage r.status r.jsonBody)]
  else
    match r.bodyChunks with
    | none => [CbEvent.onError (Json.str "Failed to read response stream.")]
    | some chunks => (runStream parse chunks).2

/-- Counterexample to C5 as stated: for a 429 response whose body parses
as the JSON object `{}` — valid JSON without a `message` field — the code
reports the generic `Failed to send message.`, not the status-specific
`Message limit reached for this report.` that the claim assigns to 429.
The 429/503 fallbacks are reachable only when `res.json()` throws. -/
theorem chat_error_429_counterexample :
    chatErrorMessage 429 (some (Json.obj [])) =
        Json.str "Failed to send message." ∧
    chatErrorMessage 429 (some (Json.obj [])) ≠
        Json.str "Message limit reached for this report." := by
  refine ⟨rfl, ?_⟩
  intro h
  injection h with h'
  exact absurd h' (by decide)

/-- C5 (amended): on every non-ok chat-turn response, `sendChatMessage`
invokes `onError` exactly once and never `onToken` or `onDone`; the error
text is the body's `message` field when the body parses as JSON and that
field is truthy; when the body parses to a non-null value whose `message`
field is absent or falsy, the generic `Failed to send message.` is used
regardless of status; the status-specific defaults (429 → `Message limit
reached for this report.`, 503 → `Chat feature is currently
unavailable.`, otherwise the generic text) apply exactly when the `catch`
branch runs — when the body fails to parse as JSON, or parses to `null`
so that the `message` property access throws inside the `try`. -/
theorem chat_error_nonok_amended (parse : List Char → Option Json)
    (r : ChatResponse) (h : r.ok = false) :
    sendChatMessageModel parse r =
      [CbEvent.onError (chatErrorMessage r.status r.jsonBody)] ∧
    (∀ (status : Nat) (b m : Json), b.getField "message" = some m →
      m.truthy = true → chatErrorMessage status (some b) = m) ∧
    (∀ (status : Nat) (b : Json), b ≠ Json.null →
      (∀ m, b.getField "message" = some m → m.truthy = false) →
      chatErrorMessage status (some b) = Json.str defaultSendError) ∧
    (∀ status : Nat, chatErrorMessage status none = chatCatchDefault status) ∧
    (∀ status : Nat,
      chatErrorMessage status (some Json.null) = chatCatchDefault status) ∧
    (∀ status : Nat, chatCatchDefault status =
      if status = 429 then Json.str "Message limit reached for this report."
      else if status = 503 then
        Json.str "Chat feature is currently unavailable."
      else Json.str defaultSendError) := by
  refine ⟨?_, ?_, ?_, ?_, ?_, ?_⟩
  · unfold sendChatMessageModel
    rw [if_pos h]
  · intro status b m hm htruthy
    cases b with
    | null => simp [Json.getField] at hm
    | bool v => simp [Json.getField] at hm
    | num n => simp [Json.getField] at hm
    | str s => simp [Json.getField] at hm
    | arr xs => simp [Json.getField] at hm
    | obj fields => simp [chatErrorMessage, hm, htruthy]
  · intro status b hbne hfalsy
    cases b with
    | null => exact absurd rfl hbne
    | bool v => simp [chatErrorMessage, Json.getField]
    | num n => simp [chatErrorMessage, Json.getField]
    | str s => simp [chatErrorMessage, Json.getField]
    | arr xs => simp [chatErrorMessage, Json.getField]
    | obj fields =>
      cases hm : Json.getField (Json.obj fields) "message" with
      | none => simp [chatErrorMessage, hm]
      | some m => simp [chatErrorMessage, hm, hfalsy m hm]
  · intro status
    rfl
  · intro status
    rfl
  · intro status
    rfl

/-- Witness for the amended C5: a 404 response with body `{"message":
"Report not found."}` yields exactly one `onError` carrying that text. -/
theorem chat_error_nonok_amended_witness :
    sendChatMessageModel (fun _ => none)
        { ok := false, status := 404,
          jsonBody := some (Json.obj [("message", Json.str "Report not found.")]),
          bodyChunks := none } =
      [CbEvent.onError (chatErrorMessage 404
        (some (Json.obj [("message", Json.str "Report not found.")])))] := by
  exact (chat_error_nonok_amended (fun _ => none)
    { ok := false, status := 404,
      jsonBody := some (Json.obj [("message", Json.str "Report not found.")]),
      bodyChunks := none } rfl).1

/-- Job lifecycle states (`ReportStatusResponse.status`). -/
inductive JobStatus : Type where
  | pending : JobStatus
  | processing : JobStatus
  | completed : JobStatus
  | failed : JobStatus
deriving DecidableEq

/-- The part of `ReportStatusResponse` the poller inspects and forwards. -/
structure StatusPayload : Type where
  status : JobStatus
  resultMarkdown : Option String
  errorMessage : Option String
deriving DecidableEq

/-- One `getReportStatus` round trip: either a parsed payload, or a
thrown value (`some m` for an `Error` with message `m`, `none` for a
non-`Error` throw). -/
inductive PollAttempt : Type where
  | ok (data : StatusPayload) : PollAttempt
  | exn (message : Option String) : PollAttempt
deriving DecidableEq

/-- A callback fired by the poller. -/
inductive PollEvent : Type where
  | complete (data : StatusPayload) : PollEvent
  | error (message : String) : PollEvent
deriving DecidableEq

/-- JavaScript `x || d` for a nullable string `x`. -/
def jsOrElse (x : Option String) (d : String) : String :=
  match x with
  | some v => if v = "" then d else v
  | none => d

/-- `StatusPoller.poll`: `completed` fires `onComplete` and stops,
`failed` fires `onError` with `error_message || "Report analysis
failed."` and stops, an exception fires `onError` with
`err instanceof Error ? err.message : "Failed to check report status."`
and stops, anything else continues. -/
def pollStep (r : PollAttempt) : Bool × Option PollEvent :=
  match r with
  | PollAttempt.ok data =>
    match data.status with
    | JobStatus.completed => (true, some (PollEvent.complete data))
    | JobStatus.failed =>
      (true, some (PollEvent.error
        (jsOrElse data.errorMessage "Report analysis failed.")))
    | _ => (false, none)
  | PollAttempt.exn m =>
    (true, some (PollEvent.error (m.getD "Failed to check report status.")))

/-- The polling loop (`startPolling`), run against the sequence of
outcomes the network would return: fired events plus the number of
requests actually issued. -/
def pollLoop : List PollAttempt → List PollEvent × Nat
  | [] => ([], 0)
  | r :: rs =>
    let s := pollStep r
    if s.1 then (s.2.toList, 1)
    else
      let q := pollLoop rs
      (s.2.toList ++ q.1, q.2 + 1)

/-- `const POLL_INTERVAL_MS = 3000;` -/
def POLL_INTERVAL_MS : Nat := 3000

/-- Externally observable poller actions, for the cadence property. -/
inductive PollAction : Type where
  | request : PollAction
  | wait (ms : Nat) : PollAction
deriving DecidableEq

/-- The action trace of `startPolling`: a request, then — unless the poll
was terminal — a `POLL_INTERVAL_MS` wait before the next request. -/
def pollTrace : List PollAttempt → List PollAction
  | [] => []
  | r :: rs =>
    if (pollStep r).1 then [PollAction.request]
    else PollAction.request :: PollAction.wait POLL_INTERVAL_MS ::
      pollTrace rs

/-- Consecutive requests are separated by exactly one 3000 ms wait. -/
def cadenceOk : List PollAction → Bool
  | [] => true
  | [PollAction.request] => true
  | PollAction.request :: PollAction.wait ms :: rest =>
    ms == POLL_INTERVAL_MS && cadenceOk rest
  | _ => false

/-- C6: while responses are non-terminal (necessarily `pending` or
`processing` payloads) the loop keeps polling; the first terminal
response — `completed`, `failed`, or a request exception — stops all
further requests and fires exactly one callback: `onComplete` with the
payload for `completed`, `onError` with `error_message` (or the fallback
`Report analysis failed.` when it is null or empty) for `failed`. -/
theorem poll_terminal_behavior (pends : List PollAttempt) (t : PollAttempt)
    (rest : List PollAttempt)
    (hp : ∀ r ∈ pends, (pollStep r).1 = false)
    (ht : (pollStep t).1 = true) :
    pollLoop (pends ++ t :: rest) = ((pollStep t).2.toList, pends.length + 1) ∧
    (∃ ev, (pollStep t).2 = some ev) ∧
    (∀ d, t = PollAttempt.ok d → d.status = JobStatus.completed →
      (pollStep t).2 = some (PollEvent.complete d)) ∧
    (∀ d, t = PollAttempt.ok d → d.status = JobStatus.failed →
      (pollStep t).2 = some (PollEvent.error
        (jsOrElse d.errorMessage "Report analysis failed."))) ∧
    (∀ r ∈ pends, ∃ d, r = PollAttempt.ok d ∧
      (d.status = JobStatus.pending ∨ d.status = JobStatus.processing)) := by
  refine ⟨?_, ?_, ?_, ?_, ?_⟩
  · induction pends with
    | nil =>
      simp only [List.nil_append, pollLoop, ht, if_pos]
      simp
    | cons r rs ih =>
      have hr := hp r (List.mem_cons_self r rs)
      have hrs : ∀ x ∈ rs, (pollStep x).1 = false := by
        intro x hx
        exact hp x (List.mem_cons_of_mem r hx)
      have hnone : (pollStep r).2 = none := by
        cases r with
        | ok d =>
          cases hd : d.status <;> simp_all [pollStep]
        | exn m => simp [pollStep] at hr
      simp only [List.cons_append, pollLoop, hr, if_neg, ih hrs, hnone]
      simp [ih hrs]
  · cases t with
    | ok d =>
      cases hd : d.status <;> simp_all [pollStep]
    | exn m => exact ⟨_, rfl⟩
  · intro d htd hds
    subst htd
    simp [pollStep, hds]
  · intro d htd hds
    subst htd
    simp [pollStep, hds]
  · intro r hr
    have := hp r hr
    cases r with
    | ok d =>
      refine ⟨d, rfl, ?_⟩
      cases hd : d.status <;> simp_all [pollStep]
    | exn m => simp [pollStep] at this

/-- Witness for C6: two `processing` responses followed by a `completed`
one issue exactly three requests and fire the single `onComplete`. -/
theorem poll_terminal_behavior_witness :
    pollLoop
        [PollAttempt.ok ⟨JobStatus.processing, none, none⟩,
          PollAttempt.ok ⟨JobStatus.processing, none, none⟩,
          PollAttempt.ok ⟨JobStatus.completed, some "# Report", none⟩] =
      ([PollEvent.complete ⟨JobStatus.completed, some "# Report", none⟩], 3) := by
  have h := poll_terminal_behavior
    [PollAttempt.ok ⟨JobStatus.processing, none, none⟩,
      PollAttempt.ok ⟨JobStatus.processing, none, none⟩]
    (PollAttempt.ok ⟨JobStatus.completed, some "# Report", none⟩) []
    (by decide) (by decide)
  exact h.1

/-- C8: the polling interval constant is 3000 ms, inside the 2–3 second
window the spec states, and every gap between consecutive requests in the
poller's action trace is exactly one `POLL_INTERVAL_MS` wait. -/
theorem poll_interval_cadence :
    POLL_INTERVAL_MS = 3000 ∧
    2000 ≤ POLL_INTERVAL_MS ∧ POLL_INTERVAL_MS ≤ 3000 ∧
    ∀ rs : List PollAttempt, cadenceOk (pollTrace rs) = true := by
  refine ⟨rfl, by decide, by decide, ?_⟩
  intro rs
  induction rs with
  | nil => rfl
  | cons r rs ih =>
    by_cases hr : (pollStep r).1 = true
    · simp [pollTrace, hr, cadenceOk]
    · simp only [pollTrace, hr, if_neg, Bool.not_eq_true] at *
      simp [pollTrace, hr, cadenceOk, ih]

/-- `const ALLOWED_TYPES = ["application/pdf", "image/jpeg", "image/png"];` -/
def ALLOWED_TYPES : List String :=
  ["application/pdf", "image/jpeg", "image/png"]

/-- `const MAX_SIZE_MB = 20;` -/
def MAX_SIZE_MB : Nat := 20

/-- `UploadForm.validateFile`: a non-null string is the rejection reason,
`null` (`none`) means the file is accepted.  Inputs are the file's
declared MIME type and size in bytes — the only attributes the client
validator consults. -/
def validateFile (fileType : String) (fileSize : Nat) : Option String :=
  if (ALLOWED_TYPES.contains fileType) = false then
    some "Unsupported file type. Please upload a PDF, JPEG, or PNG."
  else if MAX_SIZE_MB * 1024 * 1024 < fileSize then
    some ("File too large. Maximum size: " ++ toString MAX_SIZE_MB ++ " MB.")
  else none

/-- C7: the client validator rejects a file exactly when its declared
MIME type is outside {application/pdf, image/jpeg, image/png} or its
size strictly exceeds 20·1024·1024 bytes; a file of exactly the 20 MB
ceiling passes for each allowed type.  The validator reads only the type
and the size — there is no client-side page-count check. -/
theorem validateFile_reject_iff :
    (∀ (t : String) (size : Nat),
      (validateFile t size).isSome =
        (!(ALLOWED_TYPES.contains t) || decide (20 * 1024 * 1024 < size))) ∧
    validateFile "application/pdf" (20 * 1024 * 1024) = none ∧
    validateFile "image/jpeg" (20 * 1024 * 1024) = none ∧
    validateFile "image/png" (20 * 1024 * 1024) = none ∧
    validateFile "application/pdf" (20 * 1024 * 1024 + 1) =
      some ("File too large. Maximum size: " ++ toString MAX_SIZE_MB
        ++ " MB.") ∧
    validateFile "application/x-zip" 1 =
      some "Unsupported file type. Please upload a PDF, JPEG, or PNG." := by
  refine ⟨?_, by decide, by decide, by decide, by decide, by decide⟩
  intro t size
  unfold validateFile
  cases hc : ALLOWED_TYPES.contains t with
  | false => rfl
  | true =>
    rw [if_neg (by decide : ¬ (true = false))]
    by_cases hsz : MAX_SIZE_MB * 1024 * 1024 < size
    · rw [if_pos hsz]
      have hsz' : 20 * 1024 * 1024 < size := hsz
      simp [hsz']
    · rw [if_neg hsz]
      have hsz' : ¬ (20 * 1024 * 1024 < size) := hsz
      simp [hsz']

/-- `p` occurs as a contiguous substring of `t`. -/
def occursIn (p t : List Char) : Prop := ∃ pre post, t = pre ++ p ++ post

/-- Delete every leftmost, non-overlapping occurrence of `p` in `t`, with
explicit fuel so the recursion is structural and evaluates on closed
inputs.  Fuel `t.length` always suffices: each step consumes at least one
character of the text. -/
def scrubGo : Nat → List Char → List Char → List Char
  | _, _, [] => []
  | 0, _, t => t
  | fuel + 1, p, c :: cs =>
    if 1 ≤ p.length ∧ p.isPrefixOf (c :: cs) = true then
      scrubGo fuel p ((c :: cs).drop p.length)
    else
      c :: scrubGo fuel p cs

/-- One deletion pass for a single identifying substring. -/
def scrub (p t : List Char) : List Char := scrubGo t.length p t

/-- One deletion pass over all identifying substrings. -/
def scrubPass (idents : List (List Char)) (t : List Char) : List Char :=
  idents.foldl (fun acc p => scrub p acc) t

/-- Modelled from the spec: the redaction stage — absent from the
frontend sources, the backend is not part of this repository snapshot —
strips the identifying substrings (name, id/MRN, phone, address, birth
date, provider name, facility name, here the list `idents` the PII
detector reports) from the extracted text, repeating the pass until
nothing changes so that no occurrence survives.  Each productive pass
shortens the text, so `t.length` passes reach the fixed point. -/
def redactLoop : Nat → List (List Char) → List Char → List Char
  | 0, _, t => t
  | fuel + 1, idents, t =>
    let t2 := scrubPass idents t
    if t2 = t then t else redactLoop fuel idents t2

/-- Modelled from the spec: redaction of one extracted text. -/
def redactText (idents : List (List Char)) (t : List Char) : List Char :=
  redactLoop t.length idents t

theorem scrubGo_nil_left (fuel : Nat) (t : List Char) :
    scrubGo fuel [] t = t := by
  induction fuel generalizing t with
  | zero => cases t <;> rfl
  | succ n ih =>
    cases t with
    | nil => rfl
    | cons c cs =>
      have hcond : ¬ (1 ≤ ([] : List Char).length ∧
          ([] : List Char).isPrefixOf (c :: cs) = true) := by
        simp
      simp only [scrubGo, if_neg hcond]
      rw [ih]

theorem scrubGo_length_le (fuel : Nat) (p t : List Char) :
    (scrubGo fuel p t).length ≤ t.length := by
  induction fuel generalizing t with
  | zero => cases t <;> simp [scrubGo]
  | succ n ih =>
    cases t with
    | nil => simp [scrubGo]
    | cons c cs =>
      simp only [scrubGo]
      split
      · calc (scrubGo n p ((c :: cs).drop p.length)).length
            ≤ ((c :: cs).drop p.length).length := ih _
          _ ≤ (c :: cs).length := by simp
      · simpa using ih cs

theorem scrubGo_of_not_occurs (fuel : Nat) (p t : List Char)
    (h : ¬ occursIn p t) : scrubGo fuel p t = t := by
  induction fuel generalizing t with
  | zero => cases t <;> rfl
  | succ n ih =>
    cases t with
    | nil => rfl
    | cons c cs =>
      have hcond : ¬ (1 ≤ p.length ∧ p.isPrefixOf (c :: cs) = true) := by
        rintro ⟨-, hpre⟩
        obtain ⟨tail, htail⟩ := List.isPrefixOf_iff_prefix.mp hpre
        exact h ⟨[], tail, by simp [htail]⟩
      simp only [scrubGo, if_neg hcond]
      have hcs : ¬ occursIn p cs := by
        rintro ⟨pre, post, hpp⟩
        exact h ⟨c :: pre, post, by simp [hpp]⟩
      rw [ih cs hcs]

theorem scrubGo_length_lt (fuel : Nat) (p t : List Char) (hp : p ≠ [])
    (hocc : occursIn p t) (hfuel : t.length ≤ fuel) :
    (scrubGo fuel p t).length < t.length := by
  induction fuel generalizing t with
  | zero =>
    have ht : t = [] := List.eq_nil_of_length_eq_zero (Nat.le_zero.mp hfuel)
    subst ht
    obtain ⟨pre, post, hpp⟩ := hocc
    simp only [List.nil_eq, List.append_eq_nil] at hpp
    exact absurd hpp.1.2 hp
  | succ n ih =>
    cases t with
    | nil =>
      obtain ⟨pre, post, hpp⟩ := hocc
      simp only [List.nil_eq, List.append_eq_nil] at hpp
      exact absurd hpp.1.2 hp
    | cons c cs =>
      have hplen : 1 ≤ p.length := by
        cases p with
        | nil => exact absurd rfl hp
        | cons q qs => simp
      simp only [scrubGo]
      split
      · have h1 := scrubGo_length_le n p ((c :: cs).drop p.length)
        have h2 : ((c :: cs).drop p.length).length < (c :: cs).length := by
          simp only [List.length_drop, List.length_cons]
          omega
        omega
      · rename_i hcond
        have hnpre : ¬ (p.isPrefixOf (c :: cs) = true) := by
          intro hpre
          exact hcond ⟨hplen, hpre⟩
        obtain ⟨pre, post, hpp⟩ := hocc
        cases pre with
        | nil =>
          exfalso
          apply hnpre
          exact List.isPrefixOf_iff_prefix.mpr ⟨post, by simpa using hpp.symm⟩
        | cons c' pre' =>
          have hcs : cs = pre' ++ p ++ post := by
            have := hpp
            simp only [List.cons_append, List.cons.injEq] at this
            exact this.2
          have hocc' : occursIn p cs := ⟨pre', post, hcs⟩
          have hfuel' : cs.length ≤ n := by
            simp only [List.length_cons] at hfuel
            omega
          have := ih cs hocc' hfuel'
          simp only [List.length_cons]
          omega

theorem scrub_length_le (p t : List Char) : (scrub p t).length ≤ t.length :=
  scrubGo_length_le t.length p t

theorem scrub_ne_imp_lt (p t : List Char) (h : scrub p t ≠ t) :
    (scrub p t).length < t.length := by
  have hp : p ≠ [] := by
    intro hnil
    subst hnil
    exact h (scrubGo_nil_left t.length t)
  have hocc : occursIn p t := by
    by_contra hno
    exact h (scrubGo_of_not_occurs t.length p t hno)
  exact scrubGo_length_lt t.length p t hp hocc le_rfl

theorem scrubPass_length_le (ps : List (List Char)) (t : List Char) :
    (scrubPass ps t).length ≤ t.length := by
  induction ps generalizing t with
  | nil => exact le_rfl
  | cons p ps ih =>
    calc (scrubPass ps (scrub p t)).length
        ≤ (scrub p t).length := ih _
      _ ≤ t.length := scrub_length_le p t

theorem scrubPass_ne_imp_lt (ps : List (List Char)) (t : List Char)
    (h : scrubPass ps t ≠ t) : (scrubPass ps t).length < t.length := by
  induction ps generalizing t with
  | nil => exact absurd rfl h
  | cons p ps ih =>
    by_cases he : scrub p t = t
    · have hps : scrubPass (p :: ps) t = scrubPass ps t := by
        show scrubPass ps (scrub p t) = scrubPass ps t
        rw [he]
      rw [hps] at h ⊢
      exact ih t h
    · have h1 := scrub_ne_imp_lt p t he
      have h2 := scrubPass_length_le ps (scrub p t)
      show (scrubPass ps (scrub p t)).length < t.length
      omega

theorem scrubPass_fix_no_occurs (ps : List (List Char)) (t : List Char)
    (hfix : scrubPass ps t = t) :
    ∀ p ∈ ps, p ≠ [] → ¬ occursIn p t := by
  induction ps with
  | nil => intro p hp; simp at hp
  | cons q qs ih =>
    have hfix' : scrubPass qs (scrub q t) = t := hfix
    have hle1 := scrubPass_length_le qs (scrub q t)
    have hle2 := scrub_length_le q t
    have hlen : (scrub q t).length = t.length := by
      have := congrArg List.length hfix'
      simp only [List.length] at this
      omega
    have hq_eq : scrub q t = t := by
      by_contra hne
      have := scrub_ne_imp_lt q t hne
      omega
    rw [hq_eq] at hfix'
    intro p hp hpne
    rcases List.mem_cons.mp hp with rfl | hp'
    · intro hocc
      have := scrubGo_length_lt t.length p t hpne hocc le_rfl
      have hq_len : (scrub p t).length = t.length := by rw [hq_eq]
      have : (scrub p t).length < t.length := this
      omega
    · exact ih hfix' p hp' hpne

theorem redactLoop_fix (ps : List (List Char)) :
    ∀ (fuel : Nat) (t : List Char), t.length ≤ fuel →
      scrubPass ps (redactLoop fuel ps t) = redactLoop fuel ps t := by
  intro fuel
  induction fuel with
  | zero =>
    intro t ht
    have hnil : t = [] := List.eq_nil_of_length_eq_zero (Nat.le_zero.mp ht)
    subst hnil
    have : scrubPass ps ([] : List Char) = [] := by
      have h := scrubPass_length_le ps ([] : List Char)
      simp only [List.length_nil, Nat.le_zero, List.length_eq_zero] at h
      exact h
    simpa [redactLoop] using this
  | succ n ih =>
    intro t ht
    simp only [redactLoop]
    by_cases h2 : scrubPass ps t = t
    · rw [if_pos h2]
      exact h2
    · rw [if_neg h2]
      apply ih
      have := scrubPass_ne_imp_lt ps t h2
      omega

theorem redactText_no_occurs (idents : List (List Char)) (t : List Char) :
    ∀ p ∈ idents, p ≠ [] → ¬ occursIn p (redactText idents t) := by
  have hfix := redactLoop_fix idents t.length t le_rfl
  exact scrubPass_fix_no_occurs idents _ hfix

/-- Modelled from the spec: the explicit configuration structure of §9
(file-size ceiling, page ceiling, retention window, validation confidence
threshold, quota ceiling).  It carries no field that could disable or
reorder a stage. -/
structure PipelineConfig : Type where
  fileSizeCeiling : Nat
  pageCeiling : Nat
  retentionWindow : Nat
  confidenceThreshold : Nat
  quotaCeiling : Nat
deriving DecidableEq

/-- Modelled from the spec: the outcomes of the external capabilities the
stage sequence of §4.2 consumes — extraction (`none` is a hard failure),
the garbage-text heuristic, the classification confidence, the
identifying substrings the PII detector reports, the analysis parse
outcome (after its bounded retries), and the three soft stages. -/
structure PipelineExternals : Type where
  extractedText : Option (List Char)
  garbage : Bool
  confidence : Nat
  idents : List (List Char)
  analysisOk : Bool
  translationOk : Bool
  chartsOk : Bool
  renderOk : Bool

/-- Final state and persisted extracted-text artifact of one job. -/
structure PipelineRun : Type where
  status : JobStatus
  storedText : Option (List Char)

/-- Modelled from the spec: the §4.2 stage sequence.  Extraction,
garbage detection and classification are hard stops before redaction;
redaction then runs unconditionally and its output is the persisted
extracted text; analysis (on the redacted text) is a hard stop that
leaves the redacted artifact in place; translation, chart rendering and
report rendering only soft-degrade and never touch the stored text. -/
def runPipeline (cfg : PipelineConfig) (ext : PipelineExternals) :
    PipelineRun :=
  match ext.extractedText with
  | none => ⟨JobStatus.failed, none⟩
  | some raw =>
    if ext.garbage = true then ⟨JobStatus.failed, none⟩
    else if ext.confidence < cfg.confidenceThreshold then
      ⟨JobStatus.failed, none⟩
    else
      let red := redactText ext.idents raw
      if ext.analysisOk = false then ⟨JobStatus.failed, some red⟩
      else ⟨JobStatus.completed, some red⟩

/-- C4: redaction is unconditional — for every configuration and every
combination of downstream stage outcomes, whatever extracted text the
pipeline persists once the redaction stage has run is exactly the
redacted text, and it contains none of the (non-empty) identifying
substrings.  No configuration field and no later stage appears between
redaction and the stored artifact. -/
theorem redaction_unconditional (cfg : PipelineConfig)
    (ext : PipelineExternals) (t : List Char)
    (hstored : (runPipeline cfg ext).storedText = some t) :
    (∃ raw, ext.extractedText = some raw ∧ t = redactText ext.idents raw) ∧
    (∀ p ∈ ext.idents, p ≠ [] → ¬ occursIn p t) := by
  cases hex : ext.extractedText with
  | none => simp [runPipeline, hex] at hstored
  | some raw =>
    by_cases hg : ext.garbage = true
    · simp [runPipeline, hex, hg] at hstored
    · by_cases hconf : ext.confidence < cfg.confidenceThreshold
      · simp [runPipeline, hex, hg, hconf] at hstored
      · have ht : t = redactText ext.idents raw := by
          by_cases ha : ext.analysisOk = false <;>
            simp [runPipeline, hex, hg, hconf, ha] at hstored <;>
            exact hstored.symm
        subst ht
        exact ⟨⟨raw, rfl, rfl⟩, redactText_no_occurs ext.idents raw⟩

/-- Witness for C4: a run whose extraction yields `Id: John` with the
identifying substring `John` persists `Id: ` — the name is gone. -/
theorem redaction_unconditional_witness :
    ((runPipeline ⟨20, 25, 48, 70, 20⟩
        ⟨some ("Id: John".toList), false, 90, ["John".toList],
          true, true, true, true⟩).storedText =
      some ("Id: ".toList)) ∧
    (∀ p ∈ ["John".toList], p ≠ [] → ¬ occursIn p ("Id: ".toList)) := by
  constructor
  · decide
  · exact (redaction_unconditional ⟨20, 25, 48, 70, 20⟩
      ⟨some ("Id: John".toList), false, 90, ["John".toList],
        true, true, true, true⟩ ("Id: ".toList) (by decide)).2
